import Mathlib

/-!
Verification of the record flattener of `documentation-bleno`
(`src/lib/parse.js`, function `parseJSDoc`).

The external tag grammar parser (doctrine) and the markdown renderer are
collaborators outside this repository.  Their outputs are modelled from the
spec: the grammar parser turns a comment into an optional leading free-text
description plus an ordered sequence of tag tokens, each token carrying a
title, an optional name, an optional type expression, an optional
description, a line number, and an optional list of syntax error messages.
The markdown renderer is an arbitrary function `md : String → String`,
passed as a parameter.

Type expressions, location values and context values are opaque to the
flattener, so they are type parameters `τ`, `L`, `K`.

JavaScript truthiness conventions used by the source are modelled
explicitly: `none` stands for an absent/null field, and for string fields
the source's `if (x)` test is `x` being present and non-empty; for
array-valued `tag.errors` the test is presence (`isSome`), since any
array, even an empty one, is truthy in JavaScript.  The dispatch
`flatteners[tag.title]` is a property lookup that consults the prototype
chain, so titles naming function-valued `Object.prototype` members are
truthy and take the flattener branch as a silent no-op; this is modelled
by `protoNames`.
-/

namespace Bleno

/-- A tag token, as produced by the external tag grammar parser.
Modelled from the spec: `src/unnamed` and spec §2/§3 describe the token as
`\x7b title, name?, type?, description?, lineNumber, errors? \x7d`. -/
structure Tag (τ : Type) where
  title : String
  name : Option String := none
  type : Option τ := none
  description : Option String := none
  lineNumber : Nat := 0
  errors : Option (List String) := none
deriving DecidableEq, Repr

/-- The result of the external grammar parser for one whole comment.
Modelled from the spec: an optional leading free-text description
(`none` when the comment had none) plus the ordered tag sequence. -/
structure ParseResult (τ : Type) where
  description : Option String := none
  tags : List (Tag τ) := []
deriving DecidableEq, Repr

/-- One element of the record's `properties` sequence, built by the
`property` flattener in `src/lib/parse.js` lines 17–36. -/
structure Property (τ : Type) where
  name : Option String
  lineNumber : Nat
  description : Option String := none
  type : Option τ := none
deriving DecidableEq, Repr

/-- One element of the record's `errors` sequence
(`src/lib/parse.js` lines 230–241). -/
structure ErrorEntry where
  message : String
  commentLineNumber : Option Nat := none
deriving DecidableEq, Repr

/-- The flattener's output record, restricted to the schema fields the spec
names as significant (`name`, `properties`, `description`, `loc`,
`context`, `errors`).  `name` is `Option (Option String)`: the outer
option is key presence, the inner one the (possibly null) stored value,
since `result.name = tag.description` can store a null description. -/
structure Record (τ L K : Type) where
  name : Option (Option String) := none
  properties : Option (List (Property τ)) := none
  description : Option String := none
  loc : L
  context : K
  errors : List ErrorEntry := []
deriving DecidableEq, Repr

variable {τ L K : Type}

/-- The property built by the `property` flattener from one tag:
`name` and `lineNumber` copied unconditionally, `description` only when
truthy (present and non-empty, markdown-rendered), `type` only when
present (`src/lib/parse.js` lines 21–33). -/
def mkProperty (md : String → String) (t : Tag τ) : Property τ :=
  { name := t.name
    lineNumber := t.lineNumber
    description :=
      match t.description with
      | some d => if d = "" then none else some (md d)
      | none => none
    type := t.type }

/-- The `bleno` flattener: `result.name = tag.description`
(`src/lib/parse.js` lines 14–16). -/
def flattenBleno (r : Record τ L K) (t : Tag τ) : Record τ L K :=
  { r with name := some t.description }

/-- The `property` flattener: lazily initialize `properties` and push one
property (`src/lib/parse.js` lines 17–36). -/
def flattenProperty (md : String → String) (r : Record τ L K) (t : Tag τ) :
    Record τ L K :=
  { r with properties := some (r.properties.getD [] ++ [mkProperty md t]) }

/-- The dispatch `flatteners[tag.title]` (`src/lib/parse.js` line 234) is a
JavaScript property lookup on a plain object literal, so it consults the
prototype chain.  For a title naming a function-valued member of
`Object.prototype`, the lookup is truthy and the source calls the inherited
function — a no-op for the record, its return value discarded — and never
reaches the unknown-tag branch.  These are the seven such member names;
underscore-prefixed inherited members (`__proto__`, `__defineGetter__`, …)
are omitted because the grammar parser's title scanner produces only
alphanumeric titles, so they are unreachable. -/
def protoNames : List String :=
  ["constructor", "toString", "toLocaleString", "valueOf",
   "hasOwnProperty", "isPrototypeOf", "propertyIsEnumerable"]

/-- One iteration of the tag loop of `parseJSDoc`
(`src/lib/parse.js` lines 229–242): the error branch first, then the
truthiness test on `flatteners[tag.title]` — hit by the two own entries
`bleno` and `property`, but also, as a silent no-op, by titles naming
inherited `Object.prototype` functions — else the unknown-tag error. -/
def applyTag (md : String → String) (r : Record τ L K) (t : Tag τ) :
    Record τ L K :=
  if t.errors.isSome then
    { r with errors := r.errors ++ (t.errors.getD []).map (fun m => ⟨m, none⟩) }
  else if t.title == "bleno" then
    flattenBleno r t
  else if t.title == "property" then
    flattenProperty md r t
  else if protoNames.contains t.title then
    r
  else
    { r with errors := r.errors ++ [⟨"unknown tag @" ++ t.title, some t.lineNumber⟩] }

/-- The record as it stands before the tag loop: `loc`, `context` and the
empty `errors` attached, and the comment description markdown-rendered
when truthy (`src/lib/parse.js` lines 221–227). -/
def initRecord (md : String → String) (pr : ParseResult τ) (loc : L)
    (context : K) : Record τ L K :=
  { name := none
    properties := none
    description :=
      match pr.description with
      | some d => if d = "" then some d else some (md d)
      | none => none
    loc := loc
    context := context
    errors := [] }

/-- The core flattener `parseJSDoc` (`src/lib/parse.js` lines 204–245):
reject the comment when no tag is titled `bleno`, otherwise fold the tag
loop over the parsed tag sequence. -/
def parseJSDoc (md : String → String) (pr : ParseResult τ) (loc : L)
    (context : K) : Option (Record τ L K) :=
  if pr.tags.any (fun t => t.title == "bleno") then
    some (pr.tags.foldl (applyTag md) (initRecord md pr loc context))
  else
    none

/-- A tag is flattened by the `bleno` rule iff it has no errors field and
is titled `bleno`. -/
def blenoFreeB (t : Tag τ) : Bool :=
  t.errors.isNone && t.title == "bleno"

/-- A tag is flattened by the `property` rule iff it has no errors field
and is titled `property`. -/
def propFreeB (t : Tag τ) : Bool :=
  t.errors.isNone && t.title == "property"

/-- The error entries one tag contributes to the record. -/
def tagErrs (t : Tag τ) : List ErrorEntry :=
  if t.errors.isSome then
    (t.errors.getD []).map (fun m => ⟨m, none⟩)
  else if t.title == "bleno" then []
  else if t.title == "property" then []
  else if protoNames.contains t.title then []
  else [⟨"unknown tag @" ++ t.title, some t.lineNumber⟩]

/-- All error entries contributed by a tag sequence, in encounter order. -/
def errsOf : List (Tag τ) → List ErrorEntry
  | [] => []
  | t :: ts => tagErrs t ++ errsOf ts

/-- The value of the record's `name` key after processing a tag sequence,
starting from accumulator `acc`. -/
def nameOf : List (Tag τ) → Option (Option String) → Option (Option String)
  | [], acc => acc
  | t :: ts, acc => nameOf ts (if blenoFreeB t then some t.description else acc)

/-- The value of the record's `properties` key after processing a tag
sequence, starting from accumulator `acc`. -/
def propsOf (md : String → String) :
    List (Tag τ) → Option (List (Property τ)) → Option (List (Property τ))
  | [], acc => acc
  | t :: ts, acc =>
      propsOf md ts
        (if propFreeB t then some (acc.getD [] ++ [mkProperty md t]) else acc)

/-- One loop iteration appends exactly the tag's error contribution. -/
lemma applyTag_errors (md : String → String) (r : Record τ L K) (t : Tag τ) :
    (applyTag md r t).errors = r.errors ++ tagErrs t := by
  cases he : t.errors with
  | some es => simp [applyTag, tagErrs, he]
  | none =>
      cases hb : (t.title == "bleno") with
      | true => simp [applyTag, tagErrs, he, hb, flattenBleno]
      | false =>
          cases hp : (t.title == "property") with
          | true => simp [applyTag, tagErrs, he, hb, hp, flattenProperty]
          | false =>
              cases hc : protoNames.contains t.title with
              | true =>
                  have hcm : t.title ∈ protoNames := by simpa using hc
                  simp [applyTag, tagErrs, he, hb, hp, hcm]
              | false =>
                  have hcm : t.title ∉ protoNames := by simpa using hc
                  simp [applyTag, tagErrs, he, hb, hp, hcm]

/-- One loop iteration updates `name` exactly on error-free `bleno` tags. -/
lemma applyTag_name (md : String → String) (r : Record τ L K) (t : Tag τ) :
    (applyTag md r t).name =
      if blenoFreeB t then some t.description else r.name := by
  cases he : t.errors with
  | some es => simp [applyTag, blenoFreeB, he]
  | none =>
      cases hb : (t.title == "bleno") with
      | true => simp [applyTag, blenoFreeB, he, hb, flattenBleno]
      | false =>
          cases hp : (t.title == "property") with
          | true => simp [applyTag, blenoFreeB, he, hb, hp, flattenProperty]
          | false =>
              cases hc : protoNames.contains t.title with
              | true =>
                  have hcm : t.title ∈ protoNames := by simpa using hc
                  simp [applyTag, blenoFreeB, he, hb, hp, hcm]
              | false =>
                  have hcm : t.title ∉ protoNames := by simpa using hc
                  simp [applyTag, blenoFreeB, he, hb, hp, hcm]

/-- One loop iteration updates `properties` exactly on error-free
`property` tags. -/
lemma applyTag_properties (md : String → String) (r : Record τ L K) (t : Tag τ) :
    (applyTag md r t).properties =
      if propFreeB t then some (r.properties.getD [] ++ [mkProperty md t])
      else r.properties := by
  cases he : t.errors with
  | some es => simp [applyTag, propFreeB, he]
  | none =>
      cases hb : (t.title == "bleno") with
      | true =>
          have hbt : t.title = "bleno" := by simpa using hb
          simp [applyTag, propFreeB, he, hb, hbt, flattenBleno]
      | false =>
          cases hp : (t.title == "property") with
          | true => simp [applyTag, propFreeB, he, hb, hp, flattenProperty]
          | false =>
              cases hc : protoNames.contains t.title with
              | true =>
                  have hcm : t.title ∈ protoNames := by simpa using hc
                  simp [applyTag, propFreeB, he, hb, hp, hcm]
              | false =>
                  have hcm : t.title ∉ protoNames := by simpa using hc
                  simp [applyTag, propFreeB, he, hb, hp, hcm]

/-- The tag loop never touches `description`, `loc` or `context`. -/
lemma applyTag_rest (md : String → String) (r : Record τ L K) (t : Tag τ) :
    (applyTag md r t).description = r.description ∧
      (applyTag md r t).loc = r.loc ∧ (applyTag md r t).context = r.context := by
  cases he : t.errors with
  | some es => simp [applyTag, he]
  | none =>
      cases hb : (t.title == "bleno") with
      | true => simp [applyTag, he, hb, flattenBleno]
      | false =>
          cases hp : (t.title == "property") with
          | true => simp [applyTag, he, hb, hp, flattenProperty]
          | false =>
              cases hc : protoNames.contains t.title with
              | true =>
                  have hcm : t.title ∈ protoNames := by simpa using hc
                  simp [applyTag, he, hb, hp, hcm]
              | false =>
                  have hcm : t.title ∉ protoNames := by simpa using hc
                  simp [applyTag, he, hb, hp, hcm]

/-- The folded loop accumulates exactly the per-tag error contributions,
in encounter order. -/
lemma foldl_errors (md : String → String) :
    ∀ (tags : List (Tag τ)) (r : Record τ L K),
      (tags.foldl (applyTag md) r).errors = r.errors ++ errsOf tags
  | [], r => by simp [errsOf]
  | t :: ts, r => by
      simp only [List.foldl_cons, errsOf, foldl_errors md ts (applyTag md r t),
        applyTag_errors, List.append_assoc]

/-- The folded loop computes `name` as `nameOf` does. -/
lemma foldl_name (md : String → String) :
    ∀ (tags : List (Tag τ)) (r : Record τ L K),
      (tags.foldl (applyTag md) r).name = nameOf tags r.name
  | [], r => by simp [nameOf]
  | t :: ts, r => by
      simp only [List.foldl_cons, nameOf, foldl_name md ts (applyTag md r t),
        applyTag_name]

/-- The folded loop computes `properties` as `propsOf` does. -/
lemma foldl_properties (md : String → String) :
    ∀ (tags : List (Tag τ)) (r : Record τ L K),
      (tags.foldl (applyTag md) r).properties = propsOf md tags r.properties
  | [], r => by simp [propsOf]
  | t :: ts, r => by
      simp only [List.foldl_cons, propsOf, foldl_properties md ts (applyTag md r t),
        applyTag_properties]

/-- The folded loop preserves `description`, `loc` and `context`. -/
lemma foldl_rest (md : String → String) :
    ∀ (tags : List (Tag τ)) (r : Record τ L K),
      (tags.foldl (applyTag md) r).description = r.description ∧
        (tags.foldl (applyTag md) r).loc = r.loc ∧
        (tags.foldl (applyTag md) r).context = r.context
  | [], r => ⟨rfl, rfl, rfl⟩
  | t :: ts, r => by
      have h := foldl_rest md ts (applyTag md r t)
      have h2 := applyTag_rest md r t
      simp only [List.foldl_cons]
      exact ⟨h.1.trans h2.1, (h.2.1).trans h2.2.1, (h.2.2).trans h2.2.2⟩

/-- `nameOf` ignores tags that the `bleno` rule does not consume. -/
lemma nameOf_filter :
    ∀ (tags : List (Tag τ)) (acc : Option (Option String)),
      nameOf tags acc = nameOf (tags.filter blenoFreeB) acc
  | [], acc => rfl
  | t :: ts, acc => by
      cases hb : blenoFreeB t with
      | true => simp [nameOf, List.filter_cons, hb, nameOf_filter ts]
      | false => simp [nameOf, List.filter_cons, hb, nameOf_filter ts]

/-- `nameOf` over an appended list runs the two halves in order. -/
lemma nameOf_append :
    ∀ (l1 l2 : List (Tag τ)) (acc : Option (Option String)),
      nameOf (l1 ++ l2) acc = nameOf l2 (nameOf l1 acc)
  | [], l2, acc => rfl
  | t :: ts, l2, acc => by
      simp only [List.cons_append, nameOf]
      exact nameOf_append ts l2 _

/-- `propsOf` ignores tags that the `property` rule does not consume. -/
lemma propsOf_filter (md : String → String) :
    ∀ (tags : List (Tag τ)) (acc : Option (List (Property τ))),
      propsOf md tags acc = propsOf md (tags.filter propFreeB) acc
  | [], acc => rfl
  | t :: ts, acc => by
      cases hp : propFreeB t with
      | true => simp [propsOf, List.filter_cons, hp, propsOf_filter md ts]
      | false => simp [propsOf, List.filter_cons, hp, propsOf_filter md ts]

/-- `propsOf` over an appended list runs the two halves in order. -/
lemma propsOf_append (md : String → String) :
    ∀ (l1 l2 : List (Tag τ)) (acc : Option (List (Property τ))),
      propsOf md (l1 ++ l2) acc = propsOf md l2 (propsOf md l1 acc)
  | [], l2, acc => rfl
  | t :: ts, l2, acc => by
      simp only [List.cons_append, propsOf]
      exact propsOf_append md ts l2 _

/-- Starting from a present accumulator, `propsOf` over consumed tags
appends their properties in order. -/
lemma propsOf_some (md : String → String) :
    ∀ (l : List (Tag τ)), (∀ t ∈ l, propFreeB t = true) →
      ∀ (xs : List (Property τ)),
        propsOf md l (some xs) = some (xs ++ l.map (mkProperty md))
  | [], _, xs => by simp [propsOf]
  | t :: ts, h, xs => by
      have ht : propFreeB t = true := h t (List.mem_cons_self t ts)
      have hts : ∀ u ∈ ts, propFreeB u = true :=
        fun u hu => h u (List.mem_cons_of_mem t hu)
      simp [propsOf, ht, propsOf_some md ts hts, List.append_assoc]

/-- From an absent accumulator, `propsOf` over a non-empty consumed list
produces exactly the mapped properties. -/
lemma propsOf_none (md : String → String) (l : List (Tag τ))
    (h : ∀ t ∈ l, propFreeB t = true) (hne : l ≠ []) :
    propsOf md l none = some (l.map (mkProperty md)) := by
  cases l with
  | nil => exact absurd rfl hne
  | cons t ts =>
      have ht : propFreeB t = true := h t (List.mem_cons_self t ts)
      have hts : ∀ u ∈ ts, propFreeB u = true :=
        fun u hu => h u (List.mem_cons_of_mem t hu)
      simp [propsOf, ht, propsOf_some md ts hts]

/-- Filtering by "consumed by the bleno rule" is filtering the
`bleno`-titled tags down to the error-free ones. -/
lemma filter_blenoFreeB (tags : List (Tag τ)) :
    tags.filter blenoFreeB =
      (tags.filter (fun t => t.title == "bleno")).filter
        (fun t => t.errors.isNone) := by
  induction tags with
  | nil => rfl
  | cons t ts ih =>
      cases hb : (t.title == "bleno") with
      | true =>
          cases he : t.errors.isNone with
          | true => simp [List.filter_cons, blenoFreeB, hb, he, ih]
          | false => simp [List.filter_cons, blenoFreeB, hb, he, ih]
      | false => simp [List.filter_cons, blenoFreeB, hb, ih]

/-- Filtering by "consumed by the property rule" is filtering the
`property`-titled tags down to the error-free ones. -/
lemma filter_propFreeB (tags : List (Tag τ)) :
    tags.filter propFreeB =
      (tags.filter (fun t => t.title == "property")).filter
        (fun t => t.errors.isNone) := by
  induction tags with
  | nil => rfl
  | cons t ts ih =>
      cases hp : (t.title == "property") with
      | true =>
          cases he : t.errors.isNone with
          | true => simp [List.filter_cons, propFreeB, hp, he, ih]
          | false => simp [List.filter_cons, propFreeB, hp, he, ih]
      | false => simp [List.filter_cons, propFreeB, hp, ih]

/-- When the marker check passes, `parseJSDoc` is the fold of the loop. -/
lemma parseJSDoc_pos (md : String → String) (pr : ParseResult τ) (loc : L)
    (context : K) (h : pr.tags.any (fun t => t.title == "bleno") = true) :
    parseJSDoc md pr loc context =
      some (pr.tags.foldl (applyTag md) (initRecord md pr loc context)) := by
  simp [parseJSDoc, h]

/-- A marker-titled member makes the marker check pass. -/
lemma any_marker_of_mem {tags : List (Tag τ)} {t : Tag τ} (ht : t ∈ tags)
    (hb : t.title = "bleno") : tags.any (fun t => t.title == "bleno") = true := by
  simp only [List.any_eq_true]
  exact ⟨t, ht, by simp [hb]⟩

/-- Tags consumed by the `bleno` rule contribute no error entries. -/
lemma tagErrs_of_blenoFree {t : Tag τ} (h : blenoFreeB t = true) :
    tagErrs t = [] := by
  have h2 : t.errors.isNone = true ∧ (t.title == "bleno") = true := by
    simpa [blenoFreeB] using h
  have he := h2.1
  have hb := h2.2
  have he2 : t.errors.isSome = false := by
    cases hx : t.errors with
    | none => rfl
    | some es => rw [hx] at he; simp at he
  simp [tagErrs, he2, hb]

/-- The error entries of a tag sequence are those of its tags not
consumed by the `bleno` rule. -/
lemma errsOf_drop_bleno :
    ∀ tags : List (Tag τ),
      errsOf tags = errsOf (tags.filter (fun t => !(blenoFreeB t)))
  | [] => rfl
  | t :: ts => by
      cases hb : blenoFreeB t with
      | true =>
          simp [errsOf, List.filter_cons, hb, tagErrs_of_blenoFree hb,
            errsOf_drop_bleno ts]
      | false =>
          simp [errsOf, List.filter_cons, hb]
          exact errsOf_drop_bleno ts

/-- The error entries of an appended tag sequence are the appended error
entries of the halves. -/
lemma errsOf_append :
    ∀ l1 l2 : List (Tag τ), errsOf (l1 ++ l2) = errsOf l1 ++ errsOf l2
  | [], l2 => rfl
  | t :: ts, l2 => by
      show tagErrs t ++ errsOf (ts ++ l2) = (tagErrs t ++ errsOf ts) ++ errsOf l2
      rw [errsOf_append ts l2, List.append_assoc]

/- Concrete inputs used by the witnesses and counterexamples below.
Type expressions are instantiated at `String`, locations and contexts at
`Nat`, the markdown renderer at the identity function. -/

/-- A well-formed marker tag. -/
def tagBleno : Tag String := ⟨"bleno", none, none, some "getTxStatus", 5, none⟩

/-- A second well-formed marker tag. -/
def tagBleno2 : Tag String := ⟨"bleno", none, none, some "second", 10, none⟩

/-- A well-formed property tag with type and description. -/
def tagProp1 : Tag String :=
  ⟨"property", some "Request", some "Hash", some "Hex prefixed tx hash", 6, none⟩

/-- A well-formed property tag with a type but no description. -/
def tagProp2 : Tag String := ⟨"property", some "Response", some "Hex", none, 7, none⟩

/-- A tag with a title outside the dispatch table. -/
def tagUnknown : Tag String := ⟨"param", some "x", none, some "y", 8, none⟩

/-- A property tag flagged by the grammar parser with one error message. -/
def tagBad : Tag String :=
  ⟨"property", none, none, none, 9, some ["Missing or invalid title"]⟩

/-- A marker tag flagged by the grammar parser with one error message. -/
def tagBlenoBad : Tag String := ⟨"bleno", none, none, some "handler", 1, some ["oops"]⟩

/-- C1: a comment whose parsed tag sequence contains no tag titled
`bleno` makes the flattener return exactly null: no record, no errors. -/
theorem claim_C1 (md : String → String) (pr : ParseResult τ) (loc : L)
    (context : K) (h : ∀ t ∈ pr.tags, t.title ≠ "bleno") :
    parseJSDoc md pr loc context = none := by
  cases ha : pr.tags.any (fun t => t.title == "bleno") with
  | false => simp [parseJSDoc, ha]
  | true =>
      exfalso
      rcases List.any_eq_true.mp ha with ⟨t, ht, hb⟩
      exact h t ht (by simpa using hb)

/-- Witness for C1 at a concrete marker-free comment. -/
theorem claim_C1_witness :
    (∀ t ∈ (ParseResult.mk none [tagProp1, tagUnknown] : ParseResult String).tags,
        t.title ≠ "bleno") ∧
      parseJSDoc (fun s => s) (ParseResult.mk none [tagProp1, tagUnknown]) 0 0 = none :=
  ⟨by decide, claim_C1 (fun s => s) (ParseResult.mk none [tagProp1, tagUnknown]) 0 0
    (by decide)⟩

/-- C4 fails as stated: a comment with exactly one marker tag and zero
property tags where the marker tag carries a parser error yields a record
whose `name` key is absent instead of the marker's description. -/
theorem claim_C4_counterexample :
    (parseJSDoc (fun s => s) (ParseResult.mk none [tagBlenoBad]) 0 0).map
        (fun r => r.name) = some none ∧
      (ParseResult.mk none [tagBlenoBad] : ParseResult String).tags.map
        (fun t => t.title) = ["bleno"] ∧
      (ParseResult.mk none [tagBlenoBad] : ParseResult String).tags.filter
        (fun t => t.title == "property") = [] ∧
      tagBlenoBad.description = some "handler" ∧
      (parseJSDoc (fun s => s) (ParseResult.mk none [tagBlenoBad]) 0 0).map
        (fun r => r.name) ≠ some (some (some "handler")) := by
  refine ⟨by decide, by decide, by decide, by decide, by decide⟩

/-- C4 (amended): for every comment with exactly one marker tag, that tag
error-free, and zero property tags, the record has `name` equal to the
marker tag's description and no `properties` key. -/
theorem claim_C4 (md : String → String) (pr : ParseResult τ) (loc : L)
    (context : K) (t : Tag τ)
    (hf : pr.tags.filter (fun t => t.title == "bleno") = [t])
    (he : t.errors = none)
    (hp : pr.tags.filter (fun t => t.title == "property") = []) :
    ∃ rec, parseJSDoc md pr loc context = some rec ∧
      rec.name = some t.description ∧ rec.properties = none := by
  have htmem : t ∈ pr.tags.filter (fun t => t.title == "bleno") := by
    rw [hf]; exact List.mem_singleton.mpr rfl
  have ht := List.mem_filter.mp htmem
  have hany := any_marker_of_mem ht.1 (by simpa using ht.2)
  refine ⟨_, parseJSDoc_pos md pr loc context hany, ?_, ?_⟩
  · rw [foldl_name, nameOf_filter, filter_blenoFreeB, hf]
    simp [he, List.filter_cons, nameOf, blenoFreeB, ht.2, initRecord]
  · rw [foldl_properties, propsOf_filter, filter_propFreeB, hp]
    simp [propsOf, initRecord]

/-- Witness for C4 at a concrete comment with one error-free marker tag,
one unknown tag and no property tags. -/
theorem claim_C4_witness :
    ((ParseResult.mk none [tagBleno, tagUnknown] : ParseResult String).tags.filter
        (fun t => t.title == "bleno") = [tagBleno]) ∧
      tagBleno.errors = none ∧
      ((ParseResult.mk none [tagBleno, tagUnknown] : ParseResult String).tags.filter
        (fun t => t.title == "property") = []) ∧
      (∃ rec, parseJSDoc (fun s => s) (ParseResult.mk none [tagBleno, tagUnknown]) 0 0 =
          some rec ∧
        rec.name = some tagBleno.description ∧ rec.properties = none) :=
  ⟨by decide, by decide, by decide,
    claim_C4 (fun s => s) (ParseResult.mk none [tagBleno, tagUnknown]) 0 0 tagBleno
      (by decide) (by decide) (by decide)⟩

/-- C7: every error-free marker occurrence flattens; with two or more
markers the last one wins for `name`, and marker tags contribute no
error entries, so the duplication is silent. -/
theorem claim_C7 (md : String → String) (pr : ParseResult τ) (loc : L)
    (context : K) (l : List (Tag τ)) (tl : Tag τ)
    (hf : pr.tags.filter blenoFreeB = l ++ [tl]) (_hl : l ≠ []) :
    ∃ rec, parseJSDoc md pr loc context = some rec ∧
      rec.name = some tl.description ∧
      rec.errors = errsOf (pr.tags.filter (fun t => !(blenoFreeB t))) := by
  have htmem : tl ∈ pr.tags.filter blenoFreeB := by
    rw [hf]; exact List.mem_append_right l (List.mem_singleton.mpr rfl)
  have ht := List.mem_filter.mp htmem
  have hb : tl.title = "bleno" := by
    have h2 : tl.errors.isNone = true ∧ (tl.title == "bleno") = true := by
      simpa [blenoFreeB] using ht.2
    simpa using h2.2
  have hany := any_marker_of_mem ht.1 hb
  refine ⟨_, parseJSDoc_pos md pr loc context hany, ?_, ?_⟩
  · rw [foldl_name, nameOf_filter, hf, nameOf_append]
    simp [nameOf, ht.2]
  · rw [foldl_errors, ← errsOf_drop_bleno]
    simp [initRecord]

/-- Witness for C7 at a concrete comment with two error-free marker tags. -/
theorem claim_C7_witness :
    ((ParseResult.mk none [tagBleno, tagBleno2] : ParseResult String).tags.filter
        blenoFreeB = [tagBleno] ++ [tagBleno2]) ∧
      ([tagBleno] : List (Tag String)) ≠ [] ∧
      (∃ rec, parseJSDoc (fun s => s) (ParseResult.mk none [tagBleno, tagBleno2]) 0 0 =
          some rec ∧
        rec.name = some tagBleno2.description ∧
        rec.errors = errsOf
          ((ParseResult.mk none [tagBleno, tagBleno2] : ParseResult String).tags.filter
            (fun t => !(blenoFreeB t)))) :=
  ⟨by decide, by decide,
    claim_C7 (fun s => s) (ParseResult.mk none [tagBleno, tagBleno2]) 0 0
      [tagBleno] tagBleno2 (by decide) (by decide)⟩

/-- C9: two invocations with identical comment, location and context
return structurally equal results, field by field. -/
theorem claim_C9 (md : String → String) (pr : ParseResult τ) (loc : L)
    (context : K) (r1 r2 : Record τ L K)
    (h1 : parseJSDoc md pr loc context = some r1)
    (h2 : parseJSDoc md pr loc context = some r2) :
    r1.name = r2.name ∧ r1.properties = r2.properties ∧
      r1.description = r2.description ∧ r1.loc = r2.loc ∧
      r1.context = r2.context ∧ r1.errors = r2.errors := by
  have h := Option.some.inj (h1.symm.trans h2)
  subst h
  exact ⟨rfl, rfl, rfl, rfl, rfl, rfl⟩

/-- Witness for C9 at a concrete comment, both invocations evaluated. -/
theorem claim_C9_witness :
    (parseJSDoc (fun s => s) (ParseResult.mk none [tagBleno]) 0 0 =
        some (Record.mk (some (some "getTxStatus")) none none 0 0 [])) ∧
      ((Record.mk (some (some "getTxStatus")) none none 0 0 [] :
          Record String Nat Nat).name =
        (Record.mk (some (some "getTxStatus")) none none 0 0 [] :
          Record String Nat Nat).name) :=
  ⟨by decide,
    (claim_C9 (fun s => s) (ParseResult.mk none [tagBleno]) 0 0
      (Record.mk (some (some "getTxStatus")) none none 0 0 [])
      (Record.mk (some (some "getTxStatus")) none none 0 0 [])
      (by decide) (by decide)).1⟩

/-- C10: when the only marker-titled tag carries parser error messages,
the flattener still returns a record (the marker check inspects titles
only), but the record has no `name` key. -/
theorem claim_C10 (md : String → String) (pr : ParseResult τ) (loc : L)
    (context : K) (t : Tag τ) (es : List String)
    (hf : pr.tags.filter (fun t => t.title == "bleno") = [t])
    (he : t.errors = some es) :
    ∃ rec, parseJSDoc md pr loc context = some rec ∧ rec.name = none := by
  have htmem : t ∈ pr.tags.filter (fun t => t.title == "bleno") := by
    rw [hf]; exact List.mem_singleton.mpr rfl
  have ht := List.mem_filter.mp htmem
  have hany := any_marker_of_mem ht.1 (by simpa using ht.2)
  refine ⟨_, parseJSDoc_pos md pr loc context hany, ?_⟩
  rw [foldl_name, nameOf_filter, filter_blenoFreeB, hf]
  simp [he, List.filter_cons, nameOf, initRecord]

/-- Witness for C10 at a concrete comment whose single marker tag is
flagged with an error message. -/
theorem claim_C10_witness :
    ((ParseResult.mk none [tagBlenoBad, tagProp1] : ParseResult String).tags.filter
        (fun t => t.title == "bleno") = [tagBlenoBad]) ∧
      tagBlenoBad.errors = some ["oops"] ∧
      (∃ rec, parseJSDoc (fun s => s)
          (ParseResult.mk none [tagBlenoBad, tagProp1]) 0 0 = some rec ∧
        rec.name = none) :=
  ⟨by decide, by decide,
    claim_C10 (fun s => s) (ParseResult.mk none [tagBlenoBad, tagProp1]) 0 0
      tagBlenoBad ["oops"] (by decide) (by decide)⟩

/-- C2: with the marker present and N error-free property tags (N ≥ 1,
descriptions never the empty string), `properties` has exactly the N
flattened entries in source order, each with `name` and `lineNumber`
copied and `description`/`type` present iff the tag had them. -/
theorem claim_C2 (md : String → String) (pr : ParseResult τ) (loc : L)
    (context : K)
    (hm : pr.tags.any (fun t => t.title == "bleno") = true)
    (hp : ∀ t ∈ pr.tags.filter (fun t => t.title == "property"), t.errors = none)
    (hne : pr.tags.filter (fun t => t.title == "property") ≠ [])
    (hd : ∀ t ∈ pr.tags.filter (fun t => t.title == "property"),
      t.description ≠ some "") :
    ∃ rec, parseJSDoc md pr loc context = some rec ∧
      rec.properties =
        some ((pr.tags.filter (fun t => t.title == "property")).map
          (mkProperty md)) ∧
      ((pr.tags.filter (fun t => t.title == "property")).map
          (mkProperty md)).length =
        (pr.tags.filter (fun t => t.title == "property")).length ∧
      ∀ t ∈ pr.tags.filter (fun t => t.title == "property"),
        (mkProperty md t).name = t.name ∧
          (mkProperty md t).lineNumber = t.lineNumber ∧
          ((mkProperty md t).description.isSome ↔ t.description.isSome) ∧
          ((mkProperty md t).type.isSome ↔ t.type.isSome) := by
  have hfilter :
      (pr.tags.filter (fun t => t.title == "property")).filter
          (fun t => t.errors.isNone) =
        pr.tags.filter (fun t => t.title == "property") :=
    List.filter_eq_self.mpr (fun a ha => by simp [hp a ha])
  have hall : ∀ t ∈ pr.tags.filter (fun t => t.title == "property"),
      propFreeB t = true := by
    intro t htm
    have h1 := List.mem_filter.mp htm
    simp [propFreeB, hp t htm, h1.2]
  refine ⟨_, parseJSDoc_pos md pr loc context hm, ?_, List.length_map _ _, ?_⟩
  · rw [foldl_properties, propsOf_filter, filter_propFreeB, hfilter]
    have := propsOf_none md (pr.tags.filter (fun t => t.title == "property"))
      hall hne
    simpa [initRecord] using this
  · intro t htm
    refine ⟨rfl, rfl, ?_, Iff.rfl⟩
    cases hdt : t.description with
    | none => simp [mkProperty, hdt]
    | some d =>
        have hde : d ≠ "" := by
          intro hcon
          exact hd t htm (by rw [hdt, hcon])
        simp [mkProperty, hdt, hde]

/-- Witness for C2 at a concrete comment with a marker tag and two
error-free property tags, one with a description and one without. -/
theorem claim_C2_witness :
    ((ParseResult.mk none [tagBleno, tagProp1, tagProp2] :
        ParseResult String).tags.any (fun t => t.title == "bleno") = true) ∧
      (∀ t ∈ (ParseResult.mk none [tagBleno, tagProp1, tagProp2] :
          ParseResult String).tags.filter (fun t => t.title == "property"),
        t.errors = none) ∧
      ((ParseResult.mk none [tagBleno, tagProp1, tagProp2] :
          ParseResult String).tags.filter (fun t => t.title == "property") ≠ []) ∧
      (∀ t ∈ (ParseResult.mk none [tagBleno, tagProp1, tagProp2] :
          ParseResult String).tags.filter (fun t => t.title == "property"),
        t.description ≠ some "") ∧
      (∃ rec, parseJSDoc (fun s => s)
          (ParseResult.mk none [tagBleno, tagProp1, tagProp2]) 0 0 = some rec ∧
        rec.properties =
          some (((ParseResult.mk none [tagBleno, tagProp1, tagProp2] :
              ParseResult String).tags.filter
                (fun t => t.title == "property")).map (mkProperty (fun s => s))) ∧
        (((ParseResult.mk none [tagBleno, tagProp1, tagProp2] :
            ParseResult String).tags.filter
              (fun t => t.title == "property")).map (mkProperty (fun s => s))).length =
          ((ParseResult.mk none [tagBleno, tagProp1, tagProp2] :
            ParseResult String).tags.filter
              (fun t => t.title == "property")).length ∧
        ∀ t ∈ (ParseResult.mk none [tagBleno, tagProp1, tagProp2] :
            ParseResult String).tags.filter (fun t => t.title == "property"),
          (mkProperty (fun s => s) t).name = t.name ∧
            (mkProperty (fun s => s) t).lineNumber = t.lineNumber ∧
            ((mkProperty (fun s => s) t).description.isSome ↔ t.description.isSome) ∧
            ((mkProperty (fun s => s) t).type.isSome ↔ t.type.isSome)) :=
  ⟨by decide, by decide, by decide, by decide,
    claim_C2 (fun s => s) (ParseResult.mk none [tagBleno, tagProp1, tagProp2]) 0 0
      (by decide) (by decide) (by decide) (by decide)⟩

/-- C3 fails as stated: the error entries pushed for a tag flagged by the
grammar parser carry only the message; `commentLineNumber` is absent,
not the tag's line number (`src/lib/parse.js` line 232 pushes only
`message`). -/
theorem claim_C3_counterexample :
    tagBad.lineNumber = 9 ∧
      tagBad.errors = some ["Missing or invalid title"] ∧
      (parseJSDoc (fun s => s) (ParseResult.mk none [tagBleno, tagBad]) 0 0).map
        (fun r => r.errors) = some [⟨"Missing or invalid title", none⟩] ∧
      (parseJSDoc (fun s => s) (ParseResult.mk none [tagBleno, tagBad]) 0 0).map
          (fun r => r.errors.map (fun e => e.commentLineNumber)) ≠
        some [some tagBad.lineNumber] := by
  refine ⟨by decide, by decide, by decide, by decide⟩

/-- C3 (amended): for every tag flagged with parser error messages, the
flattener appends exactly one error entry per message carrying only the
message (no `commentLineNumber`), and that tag contributes nothing to
`name` or `properties`. -/
theorem claim_C3 (md : String → String) (d : Option String)
    (pre post : List (Tag τ)) (t : Tag τ) (es : List String) (loc : L)
    (context : K) (he : t.errors = some es)
    (hm : (pre ++ t :: post).any (fun u => u.title == "bleno") = true) :
    ∃ rec, parseJSDoc md (ParseResult.mk d (pre ++ t :: post)) loc context =
        some rec ∧
      rec.errors = errsOf pre ++ es.map (fun m => ⟨m, none⟩) ++ errsOf post ∧
      rec.name = nameOf (pre ++ post) none ∧
      rec.properties = propsOf md (pre ++ post) none := by
  have hbf : blenoFreeB t = false := by simp [blenoFreeB, he]
  have hpf : propFreeB t = false := by simp [propFreeB, he]
  refine ⟨_, parseJSDoc_pos md (ParseResult.mk d (pre ++ t :: post)) loc context hm,
    ?_, ?_, ?_⟩
  · rw [foldl_errors, errsOf_append]
    simp [initRecord, errsOf, tagErrs, he, List.append_assoc]
  · rw [foldl_name, nameOf_append, nameOf, hbf, nameOf_append]
    simp [initRecord]
  · rw [foldl_properties, propsOf_append, propsOf, hpf, propsOf_append]
    simp [initRecord]

/-- Witness for C3 (amended) at a concrete comment with a marker tag and
one flagged tag. -/
theorem claim_C3_witness :
    tagBad.errors = some ["Missing or invalid title"] ∧
      (([tagBleno] ++ tagBad :: ([] : List (Tag String))).any
        (fun u => u.title == "bleno") = true) ∧
      (∃ rec, parseJSDoc (fun s => s)
          (ParseResult.mk none ([tagBleno] ++ tagBad :: [])) 0 0 = some rec ∧
        rec.errors = errsOf [tagBleno] ++
          (["Missing or invalid title"].map (fun m => ⟨m, none⟩)) ++
          errsOf ([] : List (Tag String)) ∧
        rec.name = nameOf ([tagBleno] ++ []) none ∧
        rec.properties = propsOf (fun s => s) ([tagBleno] ++ []) none) :=
  ⟨by decide, by decide,
    claim_C3 (fun s => s) none [tagBleno] [] tagBad ["Missing or invalid title"]
      0 0 (by decide) (by decide)⟩

/-- A tag titled `constructor`: error-free, registered with neither
flattener, but its title names an inherited `Object.prototype` member. -/
def tagConstructor : Tag String := ⟨"constructor", none, none, some "y", 3, none⟩

/-- C5: the claim fails on the code. For the error-free tag titled
`constructor` — a title that is neither the marker title nor the property
title — the dispatch `flatteners[tag.title]` resolves to the inherited
`Object.prototype.constructor`, which is truthy, so the source calls it as
a no-op and never reaches the unknown-tag branch: the record's errors
stay empty, with no `unknown tag @constructor` entry at all. -/
theorem claim_C5 :
    tagConstructor.errors = none ∧
      tagConstructor.title ≠ "bleno" ∧
      tagConstructor.title ≠ "property" ∧
      (parseJSDoc (fun s => s)
          (ParseResult.mk none [tagBleno, tagConstructor]) 0 0).map
        (fun r => r.errors) = some [] ∧
      (parseJSDoc (fun s => s)
          (ParseResult.mk none [tagBleno, tagConstructor]) 0 0).map
          (fun r => r.errors) ≠
        some [⟨"unknown tag @" ++ tagConstructor.title,
          some tagConstructor.lineNumber⟩] := by
  refine ⟨by decide, by decide, by decide, by decide, by decide⟩

/-- C6: a produced record carries the caller's `loc` and `context`; the
optional fields `name`, `properties` and `description` are absent keys
whenever the rules do not set them, never placeholders, provided the
grammar parser does not report an empty-string comment description. -/
theorem claim_C6 (md : String → String) (pr : ParseResult τ) (loc : L)
    (context : K)
    (hm : pr.tags.any (fun t => t.title == "bleno") = true)
    (hd : pr.description ≠ some "") :
    ∃ rec, parseJSDoc md pr loc context = some rec ∧
      rec.loc = loc ∧ rec.context = context ∧
      (pr.tags.filter blenoFreeB = [] → rec.name = none) ∧
      (pr.tags.filter propFreeB = [] → rec.properties = none) ∧
      rec.properties ≠ some [] ∧
      (pr.description = none → rec.description = none) ∧
      (∀ s, pr.description = some s → rec.description = some (md s)) := by
  refine ⟨_, parseJSDoc_pos md pr loc context hm, ?_, ?_, ?_, ?_, ?_, ?_, ?_⟩
  · exact ((foldl_rest md pr.tags _).2.1).trans (by simp [initRecord])
  · exact ((foldl_rest md pr.tags _).2.2).trans (by simp [initRecord])
  · intro h
    rw [foldl_name, nameOf_filter, h]
    simp [nameOf, initRecord]
  · intro h
    rw [foldl_properties, propsOf_filter, h]
    simp [propsOf, initRecord]
  · rw [foldl_properties, propsOf_filter md pr.tags]
    cases hfp : pr.tags.filter propFreeB with
    | nil => simp [propsOf, initRecord]
    | cons a as =>
        have hall : ∀ u ∈ a :: as, propFreeB u = true := by
          intro u hu
          have : u ∈ pr.tags.filter propFreeB := by rw [hfp]; exact hu
          exact (List.mem_filter.mp this).2
        have := propsOf_none md (a :: as) hall (by simp)
        simp only [initRecord]
        rw [this]
        simp
  · intro h
    refine ((foldl_rest md pr.tags _).1).trans ?_
    simp [initRecord, h]
  · intro s hs
    refine ((foldl_rest md pr.tags _).1).trans ?_
    have hsne : s ≠ "" := by
      intro hcon
      exact hd (by rw [hs, hcon])
    simp [initRecord, hs, hsne]

/-- Witness for C6 at a concrete comment with a marker description, an
erroring marker tag only, and no property tags. -/
theorem claim_C6_witness :
    ((ParseResult.mk (some "top text") [tagBlenoBad] : ParseResult String).tags.any
        (fun t => t.title == "bleno") = true) ∧
      ((ParseResult.mk (some "top text") [tagBlenoBad] :
          ParseResult String).description ≠ some "") ∧
      (∃ rec, parseJSDoc (fun s => s)
          (ParseResult.mk (some "top text") [tagBlenoBad]) 0 0 = some rec ∧
        rec.loc = 0 ∧ rec.context = 0 ∧
        ((ParseResult.mk (some "top text") [tagBlenoBad] :
            ParseResult String).tags.filter blenoFreeB = [] → rec.name = none) ∧
        ((ParseResult.mk (some "top text") [tagBlenoBad] :
            ParseResult String).tags.filter propFreeB = [] →
          rec.properties = none) ∧
        rec.properties ≠ some [] ∧
        ((ParseResult.mk (some "top text") [tagBlenoBad] :
            ParseResult String).description = none → rec.description = none) ∧
        (∀ s, (ParseResult.mk (some "top text") [tagBlenoBad] :
            ParseResult String).description = some s →
          rec.description = some s)) :=
  ⟨by decide, by decide,
    claim_C6 (fun s => s) (ParseResult.mk (some "top text") [tagBlenoBad]) 0 0
      (by decide) (by decide)⟩

/-- A tag titled `toString`: error-free, an unrecognized title in the
dispatch table, but naming an inherited `Object.prototype` member. -/
def tagToString : Tag String := ⟨"toString", none, none, none, 4, none⟩

/-- C8: the claim fails on the code. The error-free unrecognized title
`toString` is a tag-level anomaly, but the dispatch finds the inherited
`Object.prototype.toString` — truthy — calls it as a no-op, and records
no error entry for it: the returned record's errors list is empty, so not
every anomaly becomes an error entry inside the record.  (A record is
still produced, and no exception arises for this input.) -/
theorem claim_C8 :
    tagToString.errors = none ∧
      tagToString.title ≠ "bleno" ∧
      tagToString.title ≠ "property" ∧
      (parseJSDoc (fun s => s)
          (ParseResult.mk none [tagBleno, tagToString]) 0 0).isSome = true ∧
      (parseJSDoc (fun s => s)
          (ParseResult.mk none [tagBleno, tagToString]) 0 0).map
        (fun r => r.errors) = some [] := by
  refine ⟨by decide, by decide, by decide, by decide, by decide⟩

end Bleno
